import Mathlib

/-!
Verification of the queue backend and exception log of django-signalqueue
(`signalqueue/models.py`), via a shallow embedding.

The relational store is modelled as a list of rows plus a monotone tick
counter that stands for both the autoincrement primary key and
`datetime.now` (both are nondecreasing over the life of the store, and the
tick makes `createdate` reproducible). Django queryset operations become
pure functions on this state; operations that can raise become `Except`.
-/

namespace Signalqueue

/-- One row of the `EnqueuedSignal` table: fields `createdate`, `enqueued`,
`queue_name`, `value` of the Django model, plus the implicit primary key
`id`. `value` carries a db-level `unique=True` constraint. -/
structure EnqueuedSignal where
  id : Nat
  createdate : Nat
  enqueued : Bool
  queue_name : String
  value : String
deriving DecidableEq

/-- The durable store backing `SignalQuerySet`: the table rows and the
clock/pk counter. -/
structure SignalDB where
  rows : List EnqueuedSignal
  tick : Nat
deriving DecidableEq

/-- Errors surfaced by the queryset operations.  `emptyQueue` is the
IndexError raised by `self.queued()[0]` on an empty queryset in `pop` —
the "no work available" condition; `integrityError` is the database
unique-constraint violation on `value`; `multipleObjectsReturned` is
Django's error when `get()` inside `get_or_create` matches several rows. -/
inductive DBErr where
  | emptyQueue
  | integrityError
  | multipleObjectsReturned
deriving DecidableEq

/-- Stable insertion of a row into a list ordered by `createdate`
ascending: the new row goes after every earlier row with a key less than
or equal to its own.  Building block for the `order_by("createdate")`
semantics. -/
def ordInsert (a : EnqueuedSignal) : List EnqueuedSignal → List EnqueuedSignal
  | [] => [a]
  | b :: l => if b.createdate ≤ a.createdate then b :: ordInsert a l else a :: b :: l

/-- Stable sort by `createdate` ascending, modelling
`order_by("createdate")`. -/
def sortByCreated : List EnqueuedSignal → List EnqueuedSignal
  | [] => []
  | a :: l => ordInsert a (sortByCreated l)

/-- `SignalQuerySet.queued`:
`self.filter(queue_name=self.queue_name, enqueued=enqueued).order_by("createdate")`. -/
def queued (db : SignalDB) (qn : String) (e : Bool) : List EnqueuedSignal :=
  sortByCreated (db.rows.filter fun r => r.queue_name == qn && r.enqueued == e)

/-- `SignalQuerySet.count`: the row count of `queued(enqueued=enqueued)`. -/
def count (db : SignalDB) (qn : String) (e : Bool) : Nat :=
  (queued db qn e).length

/-- `SignalQuerySet.push`:
`self.get_or_create(queue_name=self.queue_name, value=value, enqueued=True)`.
`get_or_create` first runs `get()` with all three kwargs; on zero matches
it inserts a row built from the kwargs (subject to the unique constraint
on `value`), on several matches it raises `MultipleObjectsReturned`.  The
returned `Bool` is Django's `created` flag. -/
def push (db : SignalDB) (qn v : String) :
    Except DBErr (EnqueuedSignal × Bool × SignalDB) :=
  match db.rows.filter (fun r => r.queue_name == qn && r.value == v && r.enqueued) with
  | [r] => .ok (r, false, db)
  | [] =>
      if db.rows.any (fun r => r.value == v) then .error .integrityError
      else
        let r : EnqueuedSignal :=
          { id := db.tick, createdate := db.tick, enqueued := true,
            queue_name := qn, value := v }
        .ok (r, true, { rows := db.rows ++ [r], tick := db.tick + 1 })
  | _ => .error .multipleObjectsReturned

/-- The line `out = self.queued()[0]` of `SignalQuerySet.pop`: the first
row of the ordered enqueued queryset, or the IndexError case. -/
def popSelect (db : SignalDB) (qn : String) : Option EnqueuedSignal :=
  (queued db qn true).head?

/-- The lines `out.enqueued = False; out.save()` of `SignalQuerySet.pop`:
write the row back by primary key with its flag flipped. -/
def popMark (db : SignalDB) (r : EnqueuedSignal) : SignalDB :=
  { db with rows := db.rows.map fun x =>
      if x.id == r.id then { r with enqueued := false } else x }

/-- `SignalQuerySet.pop`: select the first ordered enqueued row, flip its
flag, save, return `str(out.value)`.  Dequeued rows are marked, not
deleted. -/
def pop (db : SignalDB) (qn : String) : Except DBErr (String × SignalDB) :=
  match popSelect db qn with
  | none => .error .emptyQueue
  | some r => .ok (r.value, popMark db r)

/-- `SignalQuerySet.clear`: `self.queued().update(enqueued=False)`. -/
def clear (db : SignalDB) (qn : String) : SignalDB :=
  { db with rows := db.rows.map fun r =>
      if r.queue_name == qn && r.enqueued then { r with enqueued := false } else r }

/-- `SignalQuerySet.values(floor=0, ceil=-1)`: clamp `floor` below 1 to 0,
replace `ceil` below 1 by `self.count()`, slice the ordered enqueued
queryset, and return the `value` column.  The source performs only reads,
so the embedding returns no new state. -/
def values (db : SignalDB) (qn : String) (floor ceil : Int) : List String :=
  let floor2 : Int := if floor < 1 then 0 else floor
  let ceil2 : Int := if ceil < 1 then (count db qn true : Int) else ceil
  let out := ((queued db qn true).take ceil2.toNat).drop floor2.toNat
  out.map fun r => r.value

/-- Well-formedness of a store state: primary keys are pairwise distinct
and below the counter, and the `unique=True` constraint on `value` holds. -/
def WF (db : SignalDB) : Prop :=
  db.rows.Pairwise (fun a b => a.id ≠ b.id) ∧
  db.rows.Pairwise (fun a b => a.value ≠ b.value) ∧
  ∀ r ∈ db.rows, r.id < db.tick

instance (db : SignalDB) : Decidable (WF db) := by
  unfold WF; infer_instance

def c1row : EnqueuedSignal :=
  { id := 0, createdate := 0, enqueued := false, queue_name := "default", value := "v" }

def c1db : SignalDB :=
  { rows := [c1row], tick := 1 }

/-- Interleaved execution of two concurrent `SignalQuerySet.pop` calls, A
and B, against a shared store: A runs `out = self.queued()[0]`; B runs the
same line before A's `save()` is visible; then A saves and B saves.  Each
step is the embedding of the corresponding source line (`popSelect`,
`popMark`); the source takes no row lock and performs no conditional
update between them, so this schedule is possible.  Returns the two values
handed to the callers and the final store. -/
def twoPopInterleaved (db : SignalDB) (qn : String) :
    Option (String × String × SignalDB) :=
  match popSelect db qn with
  | none => none
  | some ra =>
      match popSelect db qn with
      | none => none
      | some rb => some (ra.value, rb.value, popMark (popMark db ra) rb)

def c9db : SignalDB :=
  { rows := [⟨0, 0, true, "default", "v"⟩], tick := 1 }

/-!
The exception dedup cache and log
(`WorkerExceptionLogManager` / `WorkerExceptionLog`).
-/

/-- The identity of a raised exception as `log_exception` sees it:
`getattr(exc_type, '__module__', "None")`, `exc_type.__name__` and
`str(exception)`. -/
structure ExcInfo where
  exception_module : String
  exception_type : String
  message : String
deriving DecidableEq

/-- One row of the `WorkerExceptionLog` table, plus the implicit primary
key `id`.  `html` is the field holding the rendered traceback. -/
structure WorkerExceptionLog where
  id : Nat
  viewed : Bool
  createdate : Nat
  count : Nat
  exception_type : String
  exception_module : String
  queue_name : String
  message : String
  html : String
deriving DecidableEq

/-- The state `log_exception` operates on: the in-process `_exceptions`
dict (an association list keyed by the `_make_key` string, holding the
cached entry objects), the persisted table rows, and the pk/clock
counter. -/
structure ExcState where
  cache : List (String × WorkerExceptionLog)
  rows : List WorkerExceptionLog
  tick : Nat
deriving DecidableEq

/-- `WorkerExceptionLogManager._make_key`:
`"%s.%s:%s" % (module, type.__name__, str(key_value))`. -/
def make_key (e : ExcInfo) : String :=
  e.exception_module ++ "." ++ e.exception_type ++ ":" ++ e.message

/-- Python dict lookup `self._exceptions[key]` / `key in self._exceptions`
on the association-list model (keys are unique, so first match suffices). -/
def lookupKey : List (String × WorkerExceptionLog) → String →
    Option WorkerExceptionLog
  | [], _ => none
  | (k, e) :: rest, key => if k = key then some e else lookupKey rest key

/-- Python dict semantics of mutating the entry object cached under an
existing key (the dict keeps pointing at the updated object). -/
def updateKey : List (String × WorkerExceptionLog) → String →
    WorkerExceptionLog → List (String × WorkerExceptionLog)
  | [], _, _ => []
  | (k, e) :: rest, key, e2 =>
      if k = key then (k, e2) :: rest else (k, e) :: updateKey rest key e2

/-- `WorkerExceptionLog.increment`: `self.count = self.count + 1`. -/
def increment (e : WorkerExceptionLog) : WorkerExceptionLog :=
  { e with count := e.count + 1 }

/-- `WorkerExceptionLogManager.log_exception`.  `html` is the blob
`ExceptionReporter(...).get_traceback_html()` would render for this
occurrence; the source computes it only on the cache-miss path, and the
embedding accordingly uses it only there.  On a miss a row with
`count=1` is persisted and cached; on a hit the cached entry is
incremented and saved back by primary key.  Returns the new state and the
returned entry. -/
def log_exception (st : ExcState) (exc : ExcInfo) (html queue_name : String) :
    ExcState × WorkerExceptionLog :=
  let key := make_key exc
  match lookupKey st.cache key with
  | none =>
      let entry : WorkerExceptionLog :=
        { id := st.tick, viewed := false, createdate := st.tick, count := 1,
          exception_type := exc.exception_type,
          exception_module := exc.exception_module,
          queue_name := queue_name, message := exc.message, html := html }
      ({ cache := st.cache ++ [(key, entry)], rows := st.rows ++ [entry],
         tick := st.tick + 1 }, entry)
  | some e =>
      let e2 := increment e
      ({ cache := updateKey st.cache key e2,
         rows := st.rows.map fun r => if r.id == e.id then e2 else r,
         tick := st.tick }, e2)

/-- `WorkerExceptionLogManager.log`, the `@contextmanager` helper:
run the caller's block; if it raises an exception matching the configured
kind (`except exc_type, exc`), route it through `log_exception` and
suppress it; otherwise let it propagate.  The block is its outcome: `.ok`
for normal completion, `.error` carrying the raised exception identity and
its rendered traceback.  `exc_type` is the `isinstance` test of the
configured exception kind. -/
def log_scope (st : ExcState) (queue_name : String) (exc_type : ExcInfo → Bool)
    (body : Except (ExcInfo × String) Unit) : Except (ExcInfo × String) ExcState :=
  match body with
  | .ok _ => .ok st
  | .error (e, html) =>
      if exc_type e then .ok (log_exception st e html queue_name).1
      else .error (e, html)

/-- `n` successive `log_exception` calls with the same exception identity
and arguments. -/
def logN (n : Nat) (st : ExcState) (exc : ExcInfo) (html queue_name : String) :
    ExcState :=
  match n with
  | 0 => st
  | m + 1 => (log_exception (logN m st exc html queue_name) exc html queue_name).1

/-- The state at worker start: empty `_exceptions` dict, empty table. -/
def initExcState : ExcState := { cache := [], rows := [], tick := 0 }

/-- Python-wellformedness of an exception identity: module paths and type
names never contain `:` and type names never contain `.` (they are
dotted/plain identifiers), while the message is arbitrary.  Under this,
`_make_key` is injective. -/
def validIdent (e : ExcInfo) : Prop :=
  (':' ∈ e.exception_module.data → False) ∧
  (':' ∈ e.exception_type.data → False) ∧
  ('.' ∈ e.exception_type.data → False)

instance (e : ExcInfo) : Decidable (validIdent e) := by
  unfold validIdent; infer_instance

/-- The entry `log_exception` builds for identity `i` at pk `idn`, after
`n` occurrences. -/
def expEntry (idn : Nat) (i : ExcInfo) (html qn : String) (n : Nat) :
    WorkerExceptionLog :=
  { id := idn, viewed := false, createdate := idn, count := n,
    exception_type := i.exception_type, exception_module := i.exception_module,
    queue_name := qn, message := i.message, html := html }

/-! Basic lemmas about the ordering model. -/

theorem perm_ordInsert (a : EnqueuedSignal) (l : List EnqueuedSignal) :
    List.Perm (ordInsert a l) (a :: l) := by
  induction l with
  | nil => simp [ordInsert]
  | cons b t ih =>
      unfold ordInsert
      by_cases h : b.createdate ≤ a.createdate
      · simp only [if_pos h]
        exact (ih.cons b).trans (List.Perm.swap a b t)
      · simp [if_neg h]

theorem perm_sortByCreated (l : List EnqueuedSignal) : List.Perm (sortByCreated l) l := by
  induction l with
  | nil => simp [sortByCreated]
  | cons a t ih =>
      exact (perm_ordInsert a (sortByCreated t)).trans (ih.cons a)

theorem length_sortByCreated (l : List EnqueuedSignal) :
    (sortByCreated l).length = l.length :=
  (perm_sortByCreated l).length_eq

theorem mem_sortByCreated {x : EnqueuedSignal} {l : List EnqueuedSignal} :
    x ∈ sortByCreated l ↔ x ∈ l :=
  (perm_sortByCreated l).mem_iff

theorem mem_ordInsert {x a : EnqueuedSignal} {l : List EnqueuedSignal} :
    x ∈ ordInsert a l ↔ x = a ∨ x ∈ l := by
  rw [(perm_ordInsert a l).mem_iff, List.mem_cons]

theorem sortByCreated_head_min {l : List EnqueuedSignal} {r : EnqueuedSignal}
    {t : List EnqueuedSignal} (h : sortByCreated l = r :: t) :
    ∀ x ∈ l, r.createdate ≤ x.createdate := by
  induction l generalizing r t with
  | nil => simp [sortByCreated] at h
  | cons a l ih =>
      unfold sortByCreated at h
      cases hs : sortByCreated l with
      | nil =>
          rw [hs] at h
          unfold ordInsert at h
          injection h with h1 h2
          subst h1
          intro x hx
          rcases List.mem_cons.mp hx with rfl | hx
          · exact Nat.le_refl _
          · have hm := (perm_sortByCreated l).symm.mem_iff.mp hx
            rw [hs] at hm
            simp at hm
      | cons b tb =>
          rw [hs] at h
          unfold ordInsert at h
          by_cases hba : b.createdate ≤ a.createdate
          · rw [if_pos hba] at h
            injection h with h1 h2
            subst h1
            intro x hx
            rcases List.mem_cons.mp hx with rfl | hx
            · exact hba
            · exact ih hs x hx
          · rw [if_neg hba] at h
            injection h with h1 h2
            subst h1
            intro x hx
            rcases List.mem_cons.mp hx with rfl | hx
            · exact Nat.le_refl _
            · exact Nat.le_trans (Nat.le_of_not_le hba) (ih hs x hx)

theorem count_eq_filter_length (db : SignalDB) (qn : String) (e : Bool) :
    count db qn e =
      (db.rows.filter fun r => r.queue_name == qn && r.enqueued == e).length := by
  unfold count queued
  exact length_sortByCreated _

/-- Claim C3: `pop` on a queue with zero still-enqueued items fails with
exactly the empty-queue condition (the IndexError raised by
`self.queued()[0]`), and that is `pop`'s only failure mode: it errors if
and only if the queue is empty, and the error is always `emptyQueue`. -/
theorem c3_pop_empty_queue (db : SignalDB) (qn : String) (err : DBErr) :
    pop db qn = .error err ↔ count db qn true = 0 ∧ err = .emptyQueue := by
  unfold pop popSelect
  cases h : queued db qn true with
  | nil => simp [count, h, eq_comm]
  | cons r t => simp [count, h]

theorem map_update_id_of_not_mem {l : List EnqueuedSignal} {i : Nat}
    {r2 : EnqueuedSignal} (h : ∀ x ∈ l, x.id ≠ i) :
    (l.map fun x => if x.id == i then r2 else x) = l := by
  induction l with
  | nil => rfl
  | cons a t ih =>
      simp only [List.map_cons]
      rw [if_neg (by simpa using h a (List.mem_cons_self a t)),
        ih fun x hx => h x (List.mem_cons_of_mem a hx)]

/-- Characterization of a successful `pop` on a well-formed store: the
returned value belongs to a minimal-`createdate` enqueued row of the bound
queue, and the new state rewrites exactly that row (by primary key) with
its flag cleared. -/
theorem pop_spec {db : SignalDB} {qn v : String} {db2 : SignalDB}
    (h : pop db qn = .ok (v, db2)) :
    ∃ r, r ∈ db.rows ∧ r.queue_name = qn ∧ r.enqueued = true ∧ v = r.value ∧
      (∀ x ∈ db.rows, x.queue_name = qn → x.enqueued = true →
        r.createdate ≤ x.createdate) ∧
      db2.rows = (db.rows.map fun x =>
        if x.id == r.id then { r with enqueued := false } else x) ∧
      db2.tick = db.tick := by
  unfold pop popSelect at h
  cases hq : queued db qn true with
  | nil => rw [hq] at h; simp at h
  | cons r t =>
      rw [hq] at h
      simp only [List.head?_cons, Except.ok.injEq, Prod.mk.injEq] at h
      obtain ⟨rfl, rfl⟩ := h
      have hmem : r ∈ db.rows.filter
          (fun x => x.queue_name == qn && x.enqueued == true) := by
        have : r ∈ queued db qn true := by rw [hq]; exact List.mem_cons_self r t
        exact (mem_sortByCreated).mp this
      rw [List.mem_filter] at hmem
      obtain ⟨hr, hp⟩ := hmem
      simp only [Bool.and_eq_true, beq_iff_eq] at hp
      refine ⟨r, hr, hp.1, hp.2, rfl, ?_, rfl, rfl⟩
      intro x hx hxq hxe
      have hxf : x ∈ db.rows.filter
          (fun y => y.queue_name == qn && y.enqueued == true) := by
        rw [List.mem_filter]
        exact ⟨hx, by simp [hxq, hxe]⟩
      exact sortByCreated_head_min hq x hxf

theorem filter_length_popMark {db : SignalDB} {r : EnqueuedSignal}
    (hwf : WF db) (hr : r ∈ db.rows) (hq : r.enqueued = true) :
    ((popMark db r).rows.filter
      (fun x => x.queue_name == r.queue_name && x.enqueued == true)).length + 1 =
    (db.rows.filter
      (fun x => x.queue_name == r.queue_name && x.enqueued == true)).length := by
  obtain ⟨l1, l2, hsplit⟩ := List.append_of_mem hr
  obtain ⟨hid, -, -⟩ := hwf
  rw [hsplit] at hid
  rw [List.pairwise_append] at hid
  obtain ⟨-, hid2, hid12⟩ := hid
  rw [List.pairwise_cons] at hid2
  have h1 : ∀ x ∈ l1, x.id ≠ r.id :=
    fun x hx => hid12 x hx r (List.mem_cons_self r l2)
  have h2 : ∀ x ∈ l2, x.id ≠ r.id :=
    fun x hx => (hid2.1 x hx).symm
  unfold popMark
  rw [hsplit]
  simp only [List.map_append, List.map_cons]
  rw [map_update_id_of_not_mem h1, map_update_id_of_not_mem h2, if_pos (by simp)]
  simp only [List.filter_append, List.length_append, List.filter_cons]
  rw [if_neg (by simp), if_pos (by simp [hq])]
  simp [Nat.add_assoc, Nat.add_comm, Nat.add_left_comm]

/-- Claim C4: `pop` marks but never deletes.  On a well-formed store, a
successful `pop` returning `v` decreases `count(enqueued=True)` by exactly
one, keeps a row with value `v` (all fields as before except `enqueued`,
now false) in the store, leaves every other row present unchanged, and
deletes nothing (the row count is preserved). -/
theorem c4_pop_marks_not_deletes {db : SignalDB} {qn v : String} {db2 : SignalDB}
    (hwf : WF db) (h : pop db qn = .ok (v, db2)) :
    count db2 qn true + 1 = count db qn true ∧
    (∃ r ∈ db.rows, r.queue_name = qn ∧ r.enqueued = true ∧ v = r.value ∧
      { r with enqueued := false } ∈ db2.rows ∧
      ∀ x ∈ db.rows, x.id ≠ r.id → x ∈ db2.rows) ∧
    db2.rows.length = db.rows.length := by
  obtain ⟨r, hr, hrq, hre, hv, -, hrows, htick⟩ := pop_spec h
  have hmark : db2 = popMark db r := by
    cases db2
    simp only [popMark]
    simp_all
  constructor
  · rw [count_eq_filter_length, count_eq_filter_length, hmark]
    subst hrq
    exact filter_length_popMark hwf hr hre
  refine ⟨⟨r, hr, hrq, hre, hv, ?_, ?_⟩, ?_⟩
  · rw [hrows]
    exact List.mem_map.mpr ⟨r, hr, by simp⟩
  · intro x hx hxid
    rw [hrows]
    exact List.mem_map.mpr ⟨x, hx, by simp [beq_iff_eq, hxid]⟩
  · rw [hrows]
    exact List.length_map _ _

/-- Claim C5: after `clear()`, no item of the queue is still enqueued;
every item that was enqueued is retained with its flag cleared and all
other fields intact; rows that were not enqueued in this queue (already
dequeued ones and other queues' rows) are unchanged; nothing is deleted. -/
theorem c5_clear_semantics (db : SignalDB) (qn : String) :
    count (clear db qn) qn true = 0 ∧
    (∀ r ∈ db.rows, r.queue_name = qn → r.enqueued = true →
      { r with enqueued := false } ∈ (clear db qn).rows) ∧
    (∀ r ∈ db.rows, ¬(r.queue_name = qn ∧ r.enqueued = true) →
      r ∈ (clear db qn).rows) ∧
    (clear db qn).rows.length = db.rows.length ∧
    (clear db qn).tick = db.tick := by
  refine ⟨?_, ?_, ?_, ?_, rfl⟩
  · rw [count_eq_filter_length]
    rw [List.length_eq_zero, List.filter_eq_nil_iff]
    intro a ha
    unfold clear at ha
    simp only [List.mem_map] at ha
    obtain ⟨x, -, rfl⟩ := ha
    by_cases hc : x.queue_name == qn && x.enqueued
    · rw [if_pos hc]; simp
    · rw [if_neg hc]
      simpa using hc
  · intro r hr hrq hre
    unfold clear
    exact List.mem_map.mpr ⟨r, hr, by simp [hrq, hre]⟩
  · intro r hr hnc
    unfold clear
    have hcond : (r.queue_name == qn && r.enqueued) = false := by
      by_cases hq : r.queue_name = qn
      · by_cases he : r.enqueued = true
        · exact absurd ⟨hq, he⟩ hnc
        · simp
          intro
          exact Bool.of_not_eq_true he
      · simp [hq]
    exact List.mem_map.mpr ⟨r, hr, by simp [hcond]⟩
  · exact List.length_map _ _

/-- Instance of `c4_pop_marks_not_deletes` on a concrete one-item queue:
popping returns `"a"`, the count drops from 1 to 0, and the row survives
dequeued. -/
theorem c4_pop_marks_not_deletes_witness :
    count { rows := [⟨0, 0, false, "q", "a"⟩], tick := 1 } "q" true + 1 =
      count { rows := [⟨0, 0, true, "q", "a"⟩], tick := 1 } "q" true ∧
    (∃ r ∈ ({ rows := [⟨0, 0, true, "q", "a"⟩], tick := 1 } : SignalDB).rows,
      r.queue_name = "q" ∧ r.enqueued = true ∧ "a" = r.value ∧
      { r with enqueued := false } ∈
        ({ rows := [⟨0, 0, false, "q", "a"⟩], tick := 1 } : SignalDB).rows ∧
      ∀ x ∈ ({ rows := [⟨0, 0, true, "q", "a"⟩], tick := 1 } : SignalDB).rows,
        x.id ≠ r.id →
          x ∈ ({ rows := [⟨0, 0, false, "q", "a"⟩], tick := 1 } : SignalDB).rows) ∧
    ({ rows := [⟨0, 0, false, "q", "a"⟩], tick := 1 } : SignalDB).rows.length =
      ({ rows := [⟨0, 0, true, "q", "a"⟩], tick := 1 } : SignalDB).rows.length :=
  c4_pop_marks_not_deletes (by decide) rfl

/-- Instance of `c5_clear_semantics` on a concrete store holding one
enqueued and one already-dequeued row. -/
theorem c5_clear_semantics_witness :
    count (clear { rows := [⟨0, 0, true, "q", "a"⟩, ⟨1, 1, false, "q", "b"⟩], tick := 2 } "q") "q" true = 0 ∧
    (∀ r ∈ ({ rows := [⟨0, 0, true, "q", "a"⟩, ⟨1, 1, false, "q", "b"⟩], tick := 2 } : SignalDB).rows,
      r.queue_name = "q" → r.enqueued = true →
      { r with enqueued := false } ∈
        (clear { rows := [⟨0, 0, true, "q", "a"⟩, ⟨1, 1, false, "q", "b"⟩], tick := 2 } "q").rows) ∧
    (∀ r ∈ ({ rows := [⟨0, 0, true, "q", "a"⟩, ⟨1, 1, false, "q", "b"⟩], tick := 2 } : SignalDB).rows,
      ¬(r.queue_name = "q" ∧ r.enqueued = true) →
      r ∈ (clear { rows := [⟨0, 0, true, "q", "a"⟩, ⟨1, 1, false, "q", "b"⟩], tick := 2 } "q").rows) ∧
    (clear { rows := [⟨0, 0, true, "q", "a"⟩, ⟨1, 1, false, "q", "b"⟩], tick := 2 } "q").rows.length =
      ({ rows := [⟨0, 0, true, "q", "a"⟩, ⟨1, 1, false, "q", "b"⟩], tick := 2 } : SignalDB).rows.length ∧
    (clear { rows := [⟨0, 0, true, "q", "a"⟩, ⟨1, 1, false, "q", "b"⟩], tick := 2 } "q").tick =
      ({ rows := [⟨0, 0, true, "q", "a"⟩, ⟨1, 1, false, "q", "b"⟩], tick := 2 } : SignalDB).tick :=
  c5_clear_semantics { rows := [⟨0, 0, true, "q", "a"⟩, ⟨1, 1, false, "q", "b"⟩], tick := 2 } "q"

theorem filter_eq_single_of_value_nodup {db : SignalDB} {qn v : String}
    {r : EnqueuedSignal} (hwf : WF db) (hr : r ∈ db.rows) (hq : r.queue_name = qn)
    (hv : r.value = v) (he : r.enqueued = true) :
    db.rows.filter (fun x => x.queue_name == qn && x.value == v && x.enqueued) =
      [r] := by
  obtain ⟨l1, l2, hsplit⟩ := List.append_of_mem hr
  obtain ⟨-, hval, -⟩ := hwf
  rw [hsplit] at hval ⊢
  rw [List.pairwise_append] at hval
  obtain ⟨-, hval2, hval12⟩ := hval
  rw [List.pairwise_cons] at hval2
  have h1 : ∀ x ∈ l1, x.value ≠ v := fun x hx hxv =>
    hval12 x hx r (List.mem_cons_self r l2) (hxv.trans hv.symm)
  have h2 : ∀ x ∈ l2, x.value ≠ v := fun x hx hxv =>
    hval2.1 x hx (hv.trans hxv.symm)
  have hnil : ∀ l : List EnqueuedSignal, (∀ x ∈ l, x.value ≠ v) →
      l.filter (fun x => x.queue_name == qn && x.value == v && x.enqueued) = [] := by
    intro l hl
    rw [List.filter_eq_nil_iff]
    intro x hx
    simp only [Bool.and_eq_true, beq_iff_eq, not_and]
    rintro ⟨-, hxv⟩
    exact absurd hxv (hl x hx)
  rw [List.filter_append, List.filter_cons, hnil l1 h1, hnil l2 h2,
    if_pos (by simp [hq, hv, he])]
  rfl

/-- Claim C1 counterexample: the idempotence of `push` does not hold
"regardless of enqueued state".  In a store holding exactly one row with
value `"v"` that has already been popped (`enqueued = false`), a queue
item with value `"v"` exists, yet `push "v"` does not return it: the
`get_or_create` lookup filters on `enqueued=True`, misses the row, and the
attempted insert violates the `unique=True` constraint on `value`, raising
an IntegrityError. -/
theorem c1_push_after_pop_counterexample :
    (∃ r ∈ c1db.rows, r.queue_name = "default" ∧ r.value = "v") ∧
    push c1db "default" "v" = .error .integrityError := by
  constructor
  · exact ⟨c1row, List.mem_cons_self _ _, rfl, rfl⟩
  · rfl

/-- A `push` of a value that occurs nowhere in the store creates exactly
one new row, with the pk counter as `id` and `createdate`, appended to the
table. -/
theorem push_fresh {db : SignalDB} {qn v : String}
    (hfresh : ∀ r ∈ db.rows, r.value ≠ v) :
    push db qn v = .ok
      ({ id := db.tick, createdate := db.tick, enqueued := true, queue_name := qn, value := v },
       true,
       { rows := db.rows ++ [{ id := db.tick, createdate := db.tick, enqueued := true, queue_name := qn, value := v }], tick := db.tick + 1 }) := by
  have hfil : db.rows.filter
      (fun x => x.queue_name == qn && x.value == v && x.enqueued) = [] := by
    rw [List.filter_eq_nil_iff]
    intro x hx
    simp only [Bool.and_eq_true, beq_iff_eq, not_and]
    rintro ⟨-, hxv⟩
    exact absurd hxv (hfresh x hx)
  have hany : db.rows.any (fun r => r.value == v) = false := by
    rw [List.any_eq_false]
    intro x hx
    simpa using hfresh x hx
  unfold push
  rw [hfil, hany]
  rfl

/-- Claim C1 (amended): `push(v)` is idempotent by value only among
still-enqueued items.  On a well-formed store: (1) if a row of this queue
with value `v` is still enqueued, `push v` returns that row unchanged and
creates nothing; (2) if no row at all carries value `v`, the first `push v`
creates one row, a second `push v` returns that same row with no further
row, and `count()` increases by exactly 1 over the two calls — but when
value `v` exists only in dequeued form, `push v` fails with an
IntegrityError instead of returning the existing item
(`c1_push_after_pop_counterexample`). -/
theorem c1_push_idempotent_amended (db : SignalDB) (qn v : String) (hwf : WF db) :
    (∀ r ∈ db.rows, r.queue_name = qn → r.value = v → r.enqueued = true →
      push db qn v = .ok (r, false, db)) ∧
    ((∀ r ∈ db.rows, r.value ≠ v) →
      ∃ r db1, push db qn v = .ok (r, true, db1) ∧
        push db1 qn v = .ok (r, false, db1) ∧
        count db1 qn true = count db qn true + 1 ∧
        db1.rows = db.rows ++ [r] ∧ r.value = v ∧ r.queue_name = qn ∧
        r.enqueued = true) := by
  constructor
  · intro r hr hq hv he
    unfold push
    rw [filter_eq_single_of_value_nodup hwf hr hq hv he]
  · intro hfresh
    have hfil : db.rows.filter
        (fun x => x.queue_name == qn && x.value == v && x.enqueued) = [] := by
      rw [List.filter_eq_nil_iff]
      intro x hx
      simp only [Bool.and_eq_true, beq_iff_eq, not_and]
      rintro ⟨-, hxv⟩
      exact absurd hxv (hfresh x hx)
    have hany : db.rows.any (fun r => r.value == v) = false := by
      rw [List.any_eq_false]
      intro x hx
      simpa using hfresh x hx
    refine ⟨{ id := db.tick, createdate := db.tick, enqueued := true, queue_name := qn, value := v },
      { rows := db.rows ++ [{ id := db.tick, createdate := db.tick, enqueued := true, queue_name := qn, value := v }], tick := db.tick + 1 },
      ?_, ?_, ?_, rfl, rfl, rfl, rfl⟩
    · exact push_fresh hfresh
    · unfold push
      simp only [List.filter_append, hfil, List.nil_append, List.filter_cons]
      rw [if_pos (by simp)]
      rfl
    · rw [count_eq_filter_length, count_eq_filter_length]
      simp only [List.filter_append, List.length_append, List.filter_cons]
      rw [if_pos (by simp)]
      simp

/-- Instance of `c1_push_idempotent_amended` at a concrete well-formed
store: pushing the fresh value `"a"` onto an empty store twice creates one
row on the first call, retrieves it on the second, and raises the count by
exactly one. -/
theorem c1_push_idempotent_witness :
    ∃ r db1, push { rows := [], tick := 0 } "q" "a" = .ok (r, true, db1) ∧
      push db1 "q" "a" = .ok (r, false, db1) ∧
      count db1 "q" true = count { rows := [], tick := 0 } "q" true + 1 ∧
      db1.rows = ({ rows := [], tick := 0 } : SignalDB).rows ++ [r] ∧
      r.value = "a" ∧ r.queue_name = "q" ∧ r.enqueued = true :=
  (c1_push_idempotent_amended { rows := [], tick := 0 } "q" "a"
    (by decide)).2 (by decide)

/-- Claim C2: FIFO consumption per queue name.  (1) For every queue state,
a successful `pop` returns the value of a still-enqueued item of the bound
queue whose creation time is minimal among the still-enqueued items and
flips exactly that item's flag to false.  (2) Pushing three distinct
values in order onto an empty store and then popping three times yields
them in the same order. -/
theorem c2_pop_fifo (qn v1 v2 v3 : String) (h12 : v1 ≠ v2) (h13 : v1 ≠ v3)
    (h23 : v2 ≠ v3) :
    (∀ (db : SignalDB) (v : String) (db2 : SignalDB), pop db qn = .ok (v, db2) →
      ∃ r ∈ db.rows, r.queue_name = qn ∧ r.enqueued = true ∧ v = r.value ∧
        { r with enqueued := false } ∈ db2.rows ∧
        ∀ x ∈ db.rows, x.queue_name = qn → x.enqueued = true →
          r.createdate ≤ x.createdate) ∧
    (∃ i1 db1 i2 db2 i3 db3 db4 db5 db6,
      push { rows := [], tick := 0 } qn v1 = .ok (i1, true, db1) ∧
      push db1 qn v2 = .ok (i2, true, db2) ∧
      push db2 qn v3 = .ok (i3, true, db3) ∧
      pop db3 qn = .ok (v1, db4) ∧
      pop db4 qn = .ok (v2, db5) ∧
      pop db5 qn = .ok (v3, db6)) := by
  constructor
  · intro db v db2 h
    obtain ⟨r, hr, hrq, hre, hv, hmin, hrows, -⟩ := pop_spec h
    refine ⟨r, hr, hrq, hre, hv, ?_, hmin⟩
    rw [hrows]
    exact List.mem_map.mpr ⟨r, hr, by simp⟩
  · refine ⟨⟨0, 0, true, qn, v1⟩, ⟨[⟨0, 0, true, qn, v1⟩], 1⟩,
      ⟨1, 1, true, qn, v2⟩, ⟨[⟨0, 0, true, qn, v1⟩, ⟨1, 1, true, qn, v2⟩], 2⟩,
      ⟨2, 2, true, qn, v3⟩,
      ⟨[⟨0, 0, true, qn, v1⟩, ⟨1, 1, true, qn, v2⟩, ⟨2, 2, true, qn, v3⟩], 3⟩,
      ⟨[⟨0, 0, false, qn, v1⟩, ⟨1, 1, true, qn, v2⟩, ⟨2, 2, true, qn, v3⟩], 3⟩,
      ⟨[⟨0, 0, false, qn, v1⟩, ⟨1, 1, false, qn, v2⟩, ⟨2, 2, true, qn, v3⟩], 3⟩,
      ⟨[⟨0, 0, false, qn, v1⟩, ⟨1, 1, false, qn, v2⟩, ⟨2, 2, false, qn, v3⟩], 3⟩,
      ?_, ?_, ?_, ?_, ?_, ?_⟩
    · exact push_fresh (by intro r hr; simp at hr)
    · refine push_fresh ?_
      intro r hr
      simp only [List.mem_singleton] at hr
      subst hr
      exact h12
    · refine push_fresh ?_
      intro r hr
      simp only [List.mem_cons, List.mem_singleton, List.not_mem_nil, or_false] at hr
      rcases hr with rfl | rfl
      · exact h13
      · exact h23
    · simp [pop, popSelect, popMark, queued, sortByCreated, ordInsert]
    · simp [pop, popSelect, popMark, queued, sortByCreated, ordInsert]
    · simp [pop, popSelect, popMark, queued, sortByCreated, ordInsert]

/-- Instance of `c2_pop_fifo` at distinct concrete values: pushing
`"a"`, `"b"`, `"c"` onto an empty store and popping three times returns
`"a"`, `"b"`, `"c"` in order. -/
theorem c2_pop_fifo_witness :
    ∃ i1 db1 i2 db2 i3 db3 db4 db5 db6,
      push { rows := [], tick := 0 } "q" "a" = .ok (i1, true, db1) ∧
      push db1 "q" "b" = .ok (i2, true, db2) ∧
      push db2 "q" "c" = .ok (i3, true, db3) ∧
      pop db3 "q" = .ok ("a", db4) ∧
      pop db4 "q" = .ok ("b", db5) ∧
      pop db5 "q" = .ok ("c", db6) :=
  (c2_pop_fifo "q" "a" "b" "c" (by decide) (by decide) (by decide)).2

theorem sorted_ordInsert {a : EnqueuedSignal} {l : List EnqueuedSignal}
    (h : l.Pairwise fun x y => x.createdate ≤ y.createdate) :
    (ordInsert a l).Pairwise fun x y => x.createdate ≤ y.createdate := by
  induction l with
  | nil => simp [ordInsert]
  | cons b t ih =>
      rw [List.pairwise_cons] at h
      unfold ordInsert
      by_cases hba : b.createdate ≤ a.createdate
      · rw [if_pos hba, List.pairwise_cons]
        refine ⟨?_, ih h.2⟩
        intro x hx
        rcases mem_ordInsert.mp hx with rfl | hx
        · exact hba
        · exact h.1 x hx
      · rw [if_neg hba, List.pairwise_cons]
        refine ⟨?_, List.pairwise_cons.mpr h⟩
        intro x hx
        rcases List.mem_cons.mp hx with rfl | hx
        · exact Nat.le_of_not_le hba
        · exact Nat.le_trans (Nat.le_of_not_le hba) (h.1 x hx)

theorem sorted_sortByCreated (l : List EnqueuedSignal) :
    (sortByCreated l).Pairwise fun x y => x.createdate ≤ y.createdate := by
  induction l with
  | nil => exact List.Pairwise.nil
  | cons a t ih => exact sorted_ordInsert ih

theorem mem_queued {db : SignalDB} {qn : String} {r : EnqueuedSignal} :
    r ∈ queued db qn true ↔ r ∈ db.rows ∧ r.queue_name = qn ∧ r.enqueued = true := by
  unfold queued
  rw [mem_sortByCreated, List.mem_filter]
  simp

/-- Claim C6: `values(floor, ceil)` is a non-destructive slice of the
still-enqueued values of the bound queue in creation order.  (1) When
`ceil ≤ 0` it returns the values from index `floor` through the end;
(2) when `ceil > 0` it returns the values with indices in `[floor, ceil)`
(`Int.toNat` clamps a negative `floor` to 0, matching the source's
`if floor < 1: floor = 0`); (3) the underlying sequence is sorted by
creation time ascending and (4) contains exactly the still-enqueued rows
of this queue.  The embedding of `values` consumes no state because the
source only issues read queries. -/
theorem c6_values_slice (db : SignalDB) (qn : String) (floor ceil : Int) :
    (ceil ≤ 0 →
      values db qn floor ceil =
        ((queued db qn true).map fun r => r.value).drop floor.toNat) ∧
    (0 < ceil →
      values db qn floor ceil =
        (((queued db qn true).map fun r => r.value).take ceil.toNat).drop
          floor.toNat) ∧
    (queued db qn true).Pairwise (fun a b => a.createdate ≤ b.createdate) ∧
    (∀ r, r ∈ queued db qn true ↔
      r ∈ db.rows ∧ r.queue_name = qn ∧ r.enqueued = true) := by
  have hf : (if floor < 1 then (0 : Int) else floor).toNat = floor.toNat := by
    split <;> omega
  refine ⟨?_, ?_, sorted_sortByCreated _, fun r => mem_queued⟩
  · intro hle
    simp only [values]
    rw [if_pos (by omega : ceil < 1), hf]
    have hcount : ((count db qn true : Nat) : Int).toNat = (queued db qn true).length := by
      rw [Int.toNat_natCast]
      rfl
    rw [hcount, List.take_length, ← List.map_drop]
  · intro h0
    simp only [values]
    rw [if_neg (by omega : ¬ceil < 1), hf, List.map_drop, List.map_take]

/-- Instance of `c6_values_slice` on a concrete two-row store, exercising
both the `ceil ≤ 0` (through-the-end) branch and the positive-`ceil`
branch. -/
theorem c6_values_slice_witness :
    (values { rows := [⟨0, 0, true, "q", "a"⟩, ⟨1, 1, true, "q", "b"⟩], tick := 2 } "q" 1 (-1) =
      ((queued { rows := [⟨0, 0, true, "q", "a"⟩, ⟨1, 1, true, "q", "b"⟩], tick := 2 } "q" true).map fun r => r.value).drop (1 : Int).toNat) ∧
    (values { rows := [⟨0, 0, true, "q", "a"⟩, ⟨1, 1, true, "q", "b"⟩], tick := 2 } "q" 0 1 =
      (((queued { rows := [⟨0, 0, true, "q", "a"⟩, ⟨1, 1, true, "q", "b"⟩], tick := 2 } "q" true).map fun r => r.value).take (1 : Int).toNat).drop (0 : Int).toNat) :=
  ⟨(c6_values_slice { rows := [⟨0, 0, true, "q", "a"⟩, ⟨1, 1, true, "q", "b"⟩], tick := 2 } "q" 1 (-1)).1 (by decide),
   (c6_values_slice { rows := [⟨0, 0, true, "q", "a"⟩, ⟨1, 1, true, "q", "b"⟩], tick := 2 } "q" 0 1).2.1 (by decide)⟩

/-- Claim C9 fails on the code: `pop` is a plain select-then-update with
no row locking or conditional update, so two concurrent `pop` calls on a
queue holding exactly one enqueued item can interleave as
A-select, B-select, A-save, B-save, and then both callers are handed the
value `"v"` of that single item — the same item is retrieved twice,
violating at-most-one-winner. -/
theorem c9_concurrent_pop_race :
    count c9db "default" true = 1 ∧
    twoPopInterleaved c9db "default" =
      some ("v", "v", { rows := [⟨0, 0, false, "default", "v"⟩], tick := 1 }) := by
  exact ⟨rfl, rfl⟩

theorem append_sep_inj {c : Char} {y1 y2 : List Char} :
    ∀ {x1 x2 : List Char}, c ∉ x1 → c ∉ x2 →
      x1 ++ c :: y1 = x2 ++ c :: y2 → x1 = x2 ∧ y1 = y2 := by
  intro x1
  induction x1 with
  | nil =>
      intro x2 h1 h2 h
      cases x2 with
      | nil => simpa using h
      | cons b t2 =>
          simp only [List.nil_append, List.cons_append, List.cons.injEq] at h
          obtain ⟨rfl, -⟩ := h
          exact absurd (List.mem_cons_self _ _) h2
  | cons a t ih =>
      intro x2 h1 h2 h
      cases x2 with
      | nil =>
          simp only [List.nil_append, List.cons_append, List.cons.injEq] at h
          obtain ⟨rfl, -⟩ := h
          exact absurd (List.mem_cons_self _ _) h1
      | cons b t2 =>
          simp only [List.cons_append, List.cons.injEq] at h
          obtain ⟨rfl, h⟩ := h
          have ht := ih (fun hm => h1 (List.mem_cons_of_mem _ hm))
            (fun hm => h2 (List.mem_cons_of_mem _ hm)) h
          exact ⟨by rw [ht.1], ht.2⟩

/-- On Python-wellformed identities, `_make_key` is injective: the
(module, type, message) triple is recoverable from the key string. -/
theorem make_key_inj {i j : ExcInfo} (hi : validIdent i) (hj : validIdent j)
    (h : make_key i = make_key j) : i = j := by
  have hd := congrArg String.data h
  simp only [make_key, String.data_append] at hd
  have hd2 : (i.exception_module.data ++ '.' :: i.exception_type.data) ++
      ':' :: i.message.data =
      (j.exception_module.data ++ '.' :: j.exception_type.data) ++
      ':' :: j.message.data := by
    simpa [List.append_assoc] using hd
  have hx1 : ':' ∉ i.exception_module.data ++ '.' :: i.exception_type.data := by
    intro hm
    rcases List.mem_append.mp hm with hm | hm
    · exact hi.1 hm
    · rcases List.mem_cons.mp hm with h' | hm
      · exact absurd h' (by decide)
      · exact hi.2.1 hm
  have hx2 : ':' ∉ j.exception_module.data ++ '.' :: j.exception_type.data := by
    intro hm
    rcases List.mem_append.mp hm with hm | hm
    · exact hj.1 hm
    · rcases List.mem_cons.mp hm with h' | hm
      · exact absurd h' (by decide)
      · exact hj.2.1 hm
  obtain ⟨hmt, hs⟩ := append_sep_inj hx1 hx2 hd2
  have hrev := congrArg List.reverse hmt
  simp only [List.reverse_append, List.reverse_cons, List.append_assoc,
    List.singleton_append] at hrev
  obtain ⟨htr, hmr⟩ := append_sep_inj
    (fun hm => hi.2.2 (List.mem_reverse.mp hm))
    (fun hm => hj.2.2 (List.mem_reverse.mp hm)) hrev
  cases i
  cases j
  simp only [ExcInfo.mk.injEq]
  refine ⟨String.ext (List.reverse_inj.mp hmr), String.ext (List.reverse_inj.mp htr),
    String.ext hs⟩

/-- A cache hit: `log_exception` increments the cached entry and writes it
back into the dict and, by primary key, into the table. -/
theorem log_exception_hit {st : ExcState} {i : ExcInfo} {html qn : String}
    {e : WorkerExceptionLog} (h : lookupKey st.cache (make_key i) = some e) :
    log_exception st i html qn =
      ({ cache := updateKey st.cache (make_key i) (increment e),
         rows := st.rows.map fun r => if r.id == e.id then increment e else r,
         tick := st.tick }, increment e) := by
  simp only [log_exception]
  rw [h]

/-- A cache miss: `log_exception` persists a fresh `count=1` entry and
caches it. -/
theorem log_exception_miss {st : ExcState} {i : ExcInfo} {html qn : String}
    (h : lookupKey st.cache (make_key i) = none) :
    log_exception st i html qn =
      ({ cache := st.cache ++ [(make_key i,
           { id := st.tick, viewed := false, createdate := st.tick, count := 1,
             exception_type := i.exception_type,
             exception_module := i.exception_module,
             queue_name := qn, message := i.message, html := html })],
         rows := st.rows ++
           [{ id := st.tick, viewed := false, createdate := st.tick, count := 1,
              exception_type := i.exception_type,
              exception_module := i.exception_module,
              queue_name := qn, message := i.message, html := html }],
         tick := st.tick + 1 },
       { id := st.tick, viewed := false, createdate := st.tick, count := 1,
         exception_type := i.exception_type,
         exception_module := i.exception_module,
         queue_name := qn, message := i.message, html := html }) := by
  simp only [log_exception]
  rw [h]

/-- Iterating `log_exception` `n ≥ 1` times with one identity from the
initial state leaves exactly one cached key and one table row, whose count
is `n`. -/
theorem logN_single (i : ExcInfo) (html qn : String) :
    ∀ n, 1 ≤ n →
      logN n initExcState i html qn =
        { cache := [(make_key i, expEntry 0 i html qn n)],
          rows := [expEntry 0 i html qn n], tick := 1 } := by
  intro n
  induction n with
  | zero => intro h; exact absurd h (by omega)
  | succ m ih =>
      intro _hn
      by_cases hm : 1 ≤ m
      · have hst := ih hm
        show (log_exception (logN m initExcState i html qn) i html qn).1 = _
        have hk : lookupKey (logN m initExcState i html qn).cache (make_key i) =
            some (expEntry 0 i html qn m) := by
          rw [hst]
          simp [lookupKey]
        rw [log_exception_hit hk]
        simp [hst, updateKey, increment, expEntry]
      · have hm0 : m = 0 := by omega
        subst hm0
        show (log_exception (logN 0 initExcState i html qn) i html qn).1 = _
        rw [log_exception_miss (show lookupKey (logN 0 initExcState i html qn).cache
          (make_key i) = none from rfl)]
        rfl

/-- Claim C7: exception deduplication.  (1) Logging the same identity
`n ≥ 1` times from worker start yields exactly one `WorkerExceptionLog`
row, holding that identity with `count = n`.  (2) Logging two distinct
(Python-wellformed) identities yields two separate rows, each with
`count = 1`. -/
theorem c7_exception_dedup (i j : ExcInfo) (n : Nat) (h1 h2 q1 q2 : String)
    (hn : 1 ≤ n) (hi : validIdent i) (hj : validIdent j) (hij : i ≠ j) :
    (∃ e, (logN n initExcState i h1 q1).rows = [e] ∧ e.count = n ∧
      e.exception_type = i.exception_type ∧
      e.exception_module = i.exception_module ∧ e.message = i.message) ∧
    (∃ e1 e2,
      (log_exception (log_exception initExcState i h1 q1).1 j h2 q2).1.rows =
        [e1, e2] ∧
      e1.count = 1 ∧ e2.count = 1 ∧
      e1.exception_type = i.exception_type ∧
      e1.exception_module = i.exception_module ∧ e1.message = i.message ∧
      e2.exception_type = j.exception_type ∧
      e2.exception_module = j.exception_module ∧ e2.message = j.message) := by
  constructor
  · refine ⟨expEntry 0 i h1 q1 n, ?_, rfl, rfl, rfl, rfl⟩
    rw [logN_single i h1 q1 n hn]
  · have hkey : make_key i ≠ make_key j := fun hk => hij (make_key_inj hi hj hk)
    rw [log_exception_miss (show lookupKey initExcState.cache (make_key i) = none
      from rfl)]
    rw [log_exception_miss (by simp [lookupKey, hkey])]
    exact ⟨expEntry 0 i h1 q1 1, expEntry 1 j h2 q2 1,
      rfl, rfl, rfl, rfl, rfl, rfl, rfl, rfl, rfl⟩

/-- Instance of `c7_exception_dedup`: logging `ValueError: boom` five
times from worker start gives one row with count 5; logging it once and
then `TypeError: bad` gives two rows with count 1 each. -/
theorem c7_exception_dedup_witness :
    (∃ e, (logN 5 initExcState ⟨"exceptions", "ValueError", "boom"⟩ "tb" "default").rows = [e] ∧
      e.count = 5 ∧ e.exception_type = "ValueError" ∧
      e.exception_module = "exceptions" ∧ e.message = "boom") ∧
    (∃ e1 e2,
      (log_exception (log_exception initExcState ⟨"exceptions", "ValueError", "boom"⟩ "tb" "default").1
        ⟨"exceptions", "TypeError", "bad"⟩ "tb2" "default").1.rows = [e1, e2] ∧
      e1.count = 1 ∧ e2.count = 1 ∧
      e1.exception_type = "ValueError" ∧ e1.exception_module = "exceptions" ∧
      e1.message = "boom" ∧ e2.exception_type = "TypeError" ∧
      e2.exception_module = "exceptions" ∧ e2.message = "bad") :=
  c7_exception_dedup ⟨"exceptions", "ValueError", "boom"⟩
    ⟨"exceptions", "TypeError", "bad"⟩ 5 "tb" "tb2" "default" "default"
    (by decide) (by decide) (by decide) (by decide)

/-- Claim C8: scoped-log suppression.  A block that completes normally
leaves the state untouched; a block raising an exception matching the
configured kind has the exception routed through `log_exception` and
fully suppressed (the scope returns control normally, with the logged
state); an exception not matching the kind propagates unchanged. -/
theorem c8_scoped_log_suppression (st : ExcState) (qn : String)
    (exc_type : ExcInfo → Bool) (e : ExcInfo) (html : String) :
    log_scope st qn exc_type (.ok ()) = .ok st ∧
    (exc_type e = true →
      log_scope st qn exc_type (.error (e, html)) =
        .ok (log_exception st e html qn).1) ∧
    (exc_type e = false →
      log_scope st qn exc_type (.error (e, html)) = .error (e, html)) := by
  refine ⟨rfl, ?_, ?_⟩
  · intro h
    simp [log_scope, h]
  · intro h
    simp [log_scope, h]

/-- Instance of `c8_scoped_log_suppression`: with the default
catch-everything kind a raising block is suppressed and logged; with a
kind matching nothing the same exception propagates. -/
theorem c8_scoped_log_suppression_witness :
    (log_scope initExcState "default" (fun _ => true)
        (.error (⟨"exceptions", "ValueError", "boom"⟩, "tb")) =
      .ok (log_exception initExcState ⟨"exceptions", "ValueError", "boom"⟩ "tb" "default").1) ∧
    (log_scope initExcState "default" (fun _ => false)
        (.error (⟨"exceptions", "ValueError", "boom"⟩, "tb")) =
      .error (⟨"exceptions", "ValueError", "boom"⟩, "tb")) :=
  ⟨(c8_scoped_log_suppression initExcState "default" (fun _ => true)
      ⟨"exceptions", "ValueError", "boom"⟩ "tb").2.1 rfl,
   (c8_scoped_log_suppression initExcState "default" (fun _ => false)
      ⟨"exceptions", "ValueError", "boom"⟩ "tb").2.2 rfl⟩

/-- Claim C10: a repeat occurrence mutates only `count`.  When the key of
identity `i` is already cached with entry `e`, `log_exception` — whatever
`queue_name` and rendered blob are passed this time — returns `e` with its
count incremented and every other field (`message`, `html`, `queue_name`,
type, module, pk, `createdate`, `viewed`) exactly as first captured;
in the table only the row with `e`'s primary key is rewritten, every
other row is untouched, and no row is added. -/
theorem c10_repeat_increments_only_count (st : ExcState) (i : ExcInfo)
    (html qn : String) (e : WorkerExceptionLog)
    (h : lookupKey st.cache (make_key i) = some e) :
    (log_exception st i html qn).2.count = e.count + 1 ∧
    (log_exception st i html qn).2.message = e.message ∧
    (log_exception st i html qn).2.html = e.html ∧
    (log_exception st i html qn).2.queue_name = e.queue_name ∧
    (log_exception st i html qn).2.exception_type = e.exception_type ∧
    (log_exception st i html qn).2.exception_module = e.exception_module ∧
    (log_exception st i html qn).2.id = e.id ∧
    (log_exception st i html qn).2.createdate = e.createdate ∧
    (log_exception st i html qn).2.viewed = e.viewed ∧
    (log_exception st i html qn).1.rows =
      (st.rows.map fun r => if r.id == e.id then (log_exception st i html qn).2 else r) ∧
    (log_exception st i html qn).1.rows.length = st.rows.length ∧
    (∀ r ∈ st.rows, r.id ≠ e.id → r ∈ (log_exception st i html qn).1.rows) ∧
    (log_exception st i html qn).1.tick = st.tick := by
  rw [log_exception_hit h]
  refine ⟨rfl, rfl, rfl, rfl, rfl, rfl, rfl, rfl, rfl, rfl, List.length_map _ _,
    ?_, rfl⟩
  intro r hr hrid
  exact List.mem_map.mpr ⟨r, hr, by simp [beq_iff_eq, hrid]⟩

/-- Instance of `c10_repeat_increments_only_count`: after a first
occurrence logged under queue `"default"`, a repeat passed queue
`"other"` and a different blob leaves the stored `queue_name`, `message`
and `html` untouched and only bumps the count. -/
theorem c10_repeat_increments_only_count_witness :
    ((log_exception (log_exception initExcState ⟨"exceptions", "ValueError", "boom"⟩ "tb" "default").1
        ⟨"exceptions", "ValueError", "boom"⟩ "tb2" "other").2.count =
      (expEntry 0 ⟨"exceptions", "ValueError", "boom"⟩ "tb" "default" 1).count + 1) ∧
    ((log_exception (log_exception initExcState ⟨"exceptions", "ValueError", "boom"⟩ "tb" "default").1
        ⟨"exceptions", "ValueError", "boom"⟩ "tb2" "other").2.queue_name =
      (expEntry 0 ⟨"exceptions", "ValueError", "boom"⟩ "tb" "default" 1).queue_name) :=
  have happ := c10_repeat_increments_only_count
    (log_exception initExcState ⟨"exceptions", "ValueError", "boom"⟩ "tb" "default").1
    ⟨"exceptions", "ValueError", "boom"⟩ "tb2" "other"
    (expEntry 0 ⟨"exceptions", "ValueError", "boom"⟩ "tb" "default" 1) (by decide)
  ⟨happ.1, happ.2.2.2.1⟩

end Signalqueue
